import Mathlib

/-!
Verification of the ElGamal encryption layer and the three Fiat-Shamir
sigma-protocols of the cryptid crate (`src/elgamal.rs`, `src/zkp.rs`).

The underlying algebraic group, scalar field, hash engine and base64 text
encoding are external primitives of the crate (its `curve`, `scalar`, `util`
and `Hasher` modules).  Following the specification they are modelled as:
the cyclic group of order `q` written additively as `ZMod q` (scalars are
likewise `ZMod q`, the exponent field), hash functions as explicit function
parameters, and the canonical byte / base64 encodings as an injective
decimal-digit byte encoding that never contains the separator byte 58.
-/

namespace Cryptid

/-- Modelled from the spec: the external group primitive.  `e.scaled(s)` is
scalar multiplication ("raising `e` to the power `s`") in the cyclic group of
order `q`, written additively: `s • e = s * e` in `ZMod q`. -/
def scaled {q : ℕ} (e s : ZMod q) : ZMod q := s * e

/-- `CryptoContext` from `src/elgamal.rs`: owns the randomness source and the
fixed group generator.  The randomness handle is modelled as a stream of
pending outputs (`rng`); none of the functions verified here reads it. -/
structure CryptoContext (q : ℕ) where
  g : ZMod q
  rng : List ℕ

/-- `CryptoContext::generator` (`src/elgamal.rs:200-202`). -/
def CryptoContext.generator {q : ℕ} (ctx : CryptoContext q) : ZMod q := ctx.g

/-- `CryptoContext::g_to` (`src/elgamal.rs:232-234`): `g^power`. -/
def CryptoContext.g_to {q : ℕ} (ctx : CryptoContext q) (power : ZMod q) : ZMod q :=
  scaled ctx.g power

/-- `Ciphertext` (`src/elgamal.rs:84-88`): a pair of group elements. -/
structure Ciphertext (q : ℕ) where
  c1 : ZMod q
  c2 : ZMod q
deriving DecidableEq

/-- `Ciphertext::add` (`src/elgamal.rs:91-96`): componentwise group addition. -/
def Ciphertext.add {q : ℕ} (self rhs : Ciphertext q) : Ciphertext q :=
  { c1 := self.c1 + rhs.c1, c2 := self.c2 + rhs.c2 }

/-- `Ciphertext::decrypt` (`src/elgamal.rs:98-100`): `c2 - c1^secret_key`. -/
def Ciphertext.decrypt {q : ℕ} (self : Ciphertext q) (secret_key : ZMod q) : ZMod q :=
  self.c2 - scaled self.c1 secret_key

/-- `PublicKey` (`src/elgamal.rs:30-33`): wraps a group element `y`. -/
structure PublicKey (q : ℕ) where
  y : ZMod q
deriving DecidableEq

/-- `PublicKey::new` (`src/elgamal.rs:36-38`). -/
def PublicKey.new {q : ℕ} (value : ZMod q) : PublicKey q := ⟨value⟩

/-- `PublicKey::encrypt` (`src/elgamal.rs:40-44`): `c1 = g^r`, `c2 = m + y^r`. -/
def PublicKey.encrypt {q : ℕ} (self : PublicKey q) (ctx : CryptoContext q)
    (m r : ZMod q) : Ciphertext q :=
  { c1 := ctx.g_to r, c2 := m + scaled self.y r }

/-- `PublicKey::rerand` (`src/elgamal.rs:51-55`): adds an encryption of the
identity under randomness `r`. -/
def PublicKey.rerand {q : ℕ} (self : PublicKey q) (ctx : CryptoContext q)
    (ct : Ciphertext q) (r : ZMod q) : Ciphertext q :=
  { c1 := ct.c1 + ctx.g_to r, c2 := ct.c2 + scaled self.y r }

/-- Claim C1: decryption inverts encryption — for every context, secret `x`
(with public key `y = g^x`), message `m` and randomness `r`,
`decrypt (encrypt y m r) x = m`. -/
theorem decrypt_encrypt {q : ℕ} (ctx : CryptoContext q) (x m r : ZMod q) :
    ((PublicKey.new (ctx.g_to x)).encrypt ctx m r).decrypt x = m := by
  simp only [PublicKey.new, PublicKey.encrypt, Ciphertext.decrypt, CryptoContext.g_to, scaled]
  ring

/-- Claim C3: additive homomorphism — the componentwise sum of two encryptions
under the same key decrypts to the group combination of the two plaintexts. -/
theorem decrypt_add_encrypt {q : ℕ} (ctx : CryptoContext q) (x m1 m2 r1 r2 : ZMod q) :
    (((PublicKey.new (ctx.g_to x)).encrypt ctx m1 r1).add
      ((PublicKey.new (ctx.g_to x)).encrypt ctx m2 r2)).decrypt x = m1 + m2 := by
  simp only [PublicKey.new, PublicKey.encrypt, Ciphertext.add, Ciphertext.decrypt,
    CryptoContext.g_to, scaled]
  ring

/-- Claim C4: re-randomization invariance — for every ciphertext `ct` and
re-randomization scalar `rr`, `decrypt (rerand ct rr) x = decrypt ct x` when the
public key is `g^x`. -/
theorem decrypt_rerand {q : ℕ} (ctx : CryptoContext q) (x : ZMod q)
    (ct : Ciphertext q) (rr : ZMod q) :
    ((PublicKey.new (ctx.g_to x)).rerand ctx ct rr).decrypt x = ct.decrypt x := by
  simp only [PublicKey.new, PublicKey.rerand, Ciphertext.decrypt, CryptoContext.g_to, scaled]
  ring

/-- Claim C10: `encrypt`, `rerand` and `decrypt` are deterministic and draw no
randomness from the `CryptoContext`: the result is unchanged under any change of
the context's randomness stream, `encrypt` yields exactly `(g^r, m + y^r)`, and
`decrypt` is exactly `c2 - c1^x`. -/
theorem encrypt_deterministic {q : ℕ} (g : ZMod q) (rng rng' : List ℕ)
    (pk : PublicKey q) (m r : ZMod q) (ct : Ciphertext q) (x rr : ZMod q) :
    pk.encrypt ⟨g, rng⟩ m r = pk.encrypt ⟨g, rng'⟩ m r
    ∧ pk.encrypt ⟨g, rng⟩ m r = { c1 := scaled g r, c2 := m + scaled pk.y r }
    ∧ pk.rerand ⟨g, rng⟩ ct rr = pk.rerand ⟨g, rng'⟩ ct rr
    ∧ ct.decrypt x = ct.c2 - scaled ct.c1 x :=
  ⟨rfl, rfl, rfl, rfl⟩

/-- Little-endian decimal digits computed with explicit fuel, so that concrete
instances reduce inside the kernel. -/
def decDigitsAux : ℕ → ℕ → List ℕ
  | 0, _ => []
  | _ + 1, 0 => []
  | fuel + 1, n + 1 => ((n + 1) % 10) :: decDigitsAux fuel ((n + 1) / 10)

/-- Little-endian decimal digits of a natural number (empty for zero). -/
def decDigits (n : ℕ) : List ℕ := decDigitsAux n n

lemma decDigitsAux_eq (fuel : ℕ) : ∀ n, n ≤ fuel → decDigitsAux fuel n = Nat.digits 10 n := by
  induction fuel with
  | zero =>
    intro n hn
    obtain rfl : n = 0 := Nat.le_zero.mp hn
    simp [decDigitsAux]
  | succ fuel ih =>
    intro n hn
    cases n with
    | zero => simp [decDigitsAux]
    | succ n =>
      have hdiv : (n + 1) / 10 < n + 1 := Nat.div_lt_self (Nat.succ_pos n) (by norm_num)
      rw [decDigitsAux, ih _ (by omega), Nat.digits_def' (by norm_num) (Nat.succ_pos n)]

lemma decDigits_eq (n : ℕ) : decDigits n = Nat.digits 10 n :=
  decDigitsAux_eq n n le_rfl

/-- Modelled from the spec: the external canonical byte encoding (`as_bytes`)
of a group element — an injective byte string; realised as the big-endian
decimal digits of the element's value in ASCII (bytes 48-57). -/
def elemBytes {q : ℕ} (e : ZMod q) : List ℕ :=
  ((decDigits e.val).reverse).map (fun d => d + 48)

/-- Modelled from the spec: the external base64 text encoding (`as_base64`) of
a group element — injective, round-tripping, and containing no separator
byte 58 (the colon); realised by the same digit encoding. -/
def elemB64 {q : ℕ} (e : ZMod q) : List ℕ := elemBytes e

/-- Modelled from the spec: the external `CurveElem::try_from_base64` — decodes
the text encoding, failing on any malformed input or out-of-range value.
Failure is modelled as `none` (the error payload is opaque to this layer). -/
def tryDecodeElem (q : ℕ) (s : List ℕ) : Option (ZMod q) :=
  if ∀ c ∈ s, 48 ≤ c ∧ c ≤ 57 then
    let v := Nat.ofDigits 10 ((s.map (fun c => c - 48)).reverse)
    if v < q then some (v : ZMod q) else none
  else none

/-- `EncodingError` consumed from the threshold module: distinguishes a bad
group-element encoding from a wrong field count. -/
inductive EncodingError where
  | CurveElem
  | Length
deriving DecidableEq

/-- Splitting a byte string at every separator byte 58, as Rust's
`str::split(":")`: every input yields at least one (possibly empty) segment. -/
def splitOn58Aux : List ℕ → List ℕ → List (List ℕ)
  | [], acc => [acc.reverse]
  | c :: rest, acc =>
    if c = 58 then acc.reverse :: splitOn58Aux rest []
    else splitOn58Aux rest (c :: acc)

/-- `value.split(":")` in `Ciphertext::try_from` (`src/elgamal.rs:114`). -/
def splitOn58 (s : List ℕ) : List (List ℕ) := splitOn58Aux s []

/-- The decoding loop of `Ciphertext::try_from` (`src/elgamal.rs:113-117`):
decode each segment in order, returning `EncodingError::CurveElem` at the
first segment that fails to decode. -/
def decodeSegs (q : ℕ) : List (List ℕ) → Except EncodingError (List (ZMod q))
  | [] => .ok []
  | seg :: rest =>
    match tryDecodeElem q seg with
    | none => .error .CurveElem
    | some e =>
      match decodeSegs q rest with
      | .error err => .error err
      | .ok es => .ok (e :: es)

/-- `Ciphertext::to_string` (`src/elgamal.rs:103-107`): `"<c1>:<c2>"`. -/
def Ciphertext.toString {q : ℕ} (self : Ciphertext q) : List ℕ :=
  elemB64 self.c1 ++ 58 :: elemB64 self.c2

/-- `Ciphertext::try_from` (`src/elgamal.rs:109-127`): split on the separator,
decode every segment (first failure is `CurveElem`), then require exactly two
elements, else `Length`. -/
def Ciphertext.try_from (q : ℕ) (value : List ℕ) : Except EncodingError (Ciphertext q) :=
  match decodeSegs q (splitOn58 value) with
  | .error e => .error e
  | .ok elems =>
    match elems with
    | [a, b] => .ok { c1 := a, c2 := b }
    | _ => .error .Length

/-- `PublicKey::as_base64` (`src/elgamal.rs:61-63`). -/
def PublicKey.as_base64 {q : ℕ} (self : PublicKey q) : List ℕ := elemB64 self.y

/-- `PublicKey::try_from_base64` (`src/elgamal.rs:65-69`); the `CryptoError`
failure of the external element decoder is modelled as `none`. -/
def PublicKey.try_from_base64 (q : ℕ) (encoded : List ℕ) : Option (PublicKey q) :=
  (tryDecodeElem q encoded).map PublicKey.new

lemma elemBytes_bounds {q : ℕ} (e : ZMod q) : ∀ c ∈ elemBytes e, 48 ≤ c ∧ c ≤ 57 := by
  intro c hc
  simp only [elemBytes, decDigits_eq, List.mem_map, List.mem_reverse] at hc
  obtain ⟨d, hd, rfl⟩ := hc
  have : d < 10 := Nat.digits_lt_base (by norm_num) hd
  omega

lemma tryDecodeElem_elemB64 (q : ℕ) [NeZero q] (e : ZMod q) :
    tryDecodeElem q (elemB64 e) = some e := by
  rw [elemB64, tryDecodeElem, if_pos (elemBytes_bounds e)]
  have hmap : (elemBytes e).map (fun c => c - 48) = (Nat.digits 10 e.val).reverse := by
    have hcomp : ((fun c => c - 48) ∘ fun d => d + 48) = (id : ℕ → ℕ) := by
      funext d
      simp
    simp [elemBytes, decDigits_eq, List.map_map, hcomp]
  simp only [hmap, List.reverse_reverse, Nat.ofDigits_digits]
  rw [if_pos (ZMod.val_lt e)]
  exact congrArg some (ZMod.natCast_rightInverse e)

lemma elemB64_ne_58 {q : ℕ} (e : ZMod q) : ∀ c ∈ elemB64 e, c ≠ 58 := by
  intro c hc
  have := elemBytes_bounds e c hc
  omega

lemma splitOn58Aux_append_colon (a b acc : List ℕ) (h : ∀ c ∈ a, c ≠ 58) :
    splitOn58Aux (a ++ 58 :: b) acc = (acc.reverse ++ a) :: splitOn58Aux b [] := by
  induction a generalizing acc with
  | nil => simp [splitOn58Aux]
  | cons c a ih =>
    have hc : c ≠ 58 := h c (List.mem_cons_self c a)
    simp only [List.cons_append, splitOn58Aux, if_neg hc, List.append_eq]
    rw [ih _ (fun x hx => h x (List.mem_cons_of_mem c hx))]
    simp

lemma splitOn58Aux_no_colon (b acc : List ℕ) (h : ∀ c ∈ b, c ≠ 58) :
    splitOn58Aux b acc = [acc.reverse ++ b] := by
  induction b generalizing acc with
  | nil => simp [splitOn58Aux]
  | cons c b ih =>
    have hc : c ≠ 58 := h c (List.mem_cons_self c b)
    simp only [splitOn58Aux, if_neg hc]
    rw [ih _ (fun x hx => h x (List.mem_cons_of_mem c hx))]
    simp

lemma decodeSegs_ok_of_all_some (q : ℕ) (segs : List (List ℕ))
    (h : ∀ seg ∈ segs, (tryDecodeElem q seg).isSome = true) :
    ∃ es, decodeSegs q segs = .ok es ∧ es.length = segs.length := by
  induction segs with
  | nil => exact ⟨[], rfl, rfl⟩
  | cons seg rest ih =>
    obtain ⟨e, he⟩ := Option.isSome_iff_exists.mp (h seg (List.mem_cons_self seg rest))
    obtain ⟨es, hok, hlen⟩ := ih (fun s hs => h s (List.mem_cons_of_mem seg hs))
    refine ⟨e :: es, ?_, by simp [hlen]⟩
    simp only [decodeSegs, he, hok]

/-- Claim C9: the canonical text encodings round-trip — decoding the encoding
of a public key returns that key, and decoding the string form of a ciphertext
returns that ciphertext. -/
theorem roundtrip {q : ℕ} [NeZero q] :
    (∀ k : PublicKey q, PublicKey.try_from_base64 q k.as_base64 = some k)
    ∧ (∀ ct : Ciphertext q, Ciphertext.try_from q ct.toString = .ok ct) := by
  constructor
  · intro k
    rw [PublicKey.as_base64, PublicKey.try_from_base64, tryDecodeElem_elemB64]
    rfl
  · intro ct
    have hsplit : splitOn58 ct.toString = [elemB64 ct.c1, elemB64 ct.c2] := by
      rw [Ciphertext.toString, splitOn58,
        splitOn58Aux_append_colon _ _ _ (elemB64_ne_58 ct.c1),
        splitOn58Aux_no_colon _ _ (elemB64_ne_58 ct.c2)]
      rfl
    rw [Ciphertext.try_from, hsplit]
    simp only [decodeSegs, tryDecodeElem_elemB64]

/-- Witness for C9 at `q = 5`, `k = ⟨3⟩`, `ct = ⟨3, 4⟩`. -/
theorem roundtrip_witness :
    PublicKey.try_from_base64 5 (PublicKey.new (3 : ZMod 5)).as_base64 = some (PublicKey.new 3)
    ∧ Ciphertext.try_from 5 (Ciphertext.toString { c1 := (3 : ZMod 5), c2 := 4 }) =
      .ok { c1 := (3 : ZMod 5), c2 := 4 } :=
  ⟨(@roundtrip 5 ⟨by decide⟩).1 _, (@roundtrip 5 ⟨by decide⟩).2 _⟩

/-- Claim C8, amended: when every colon-separated segment decodes as a group
element but the segment count is not two, `Ciphertext::try_from` fails with
`EncodingError::Length`.  (When some segment fails to decode, the error is
`EncodingError::CurveElem` instead, whatever the segment count.) -/
theorem tryFrom_length_error (q : ℕ) (s : List ℕ)
    (hdec : ∀ seg ∈ splitOn58 s, (tryDecodeElem q seg).isSome = true)
    (hlen : (splitOn58 s).length ≠ 2) :
    Ciphertext.try_from q s = .error .Length := by
  obtain ⟨es, hok, hl⟩ := decodeSegs_ok_of_all_some q (splitOn58 s) hdec
  rw [Ciphertext.try_from, hok]
  match es, hl with
  | [], _ => rfl
  | [a], _ => rfl
  | [a, b], hl => exact absurd hl.symm hlen
  | a :: b :: c :: rest, _ => rfl

/-- Witness for the amended C8: the input `"1:1:1"` (three well-formed
segments) fails with the length error. -/
theorem tryFrom_length_error_witness :
    (∀ seg ∈ splitOn58 [49, 58, 49, 58, 49], (tryDecodeElem 5 seg).isSome = true)
    ∧ (splitOn58 [49, 58, 49, 58, 49]).length ≠ 2
    ∧ Ciphertext.try_from 5 [49, 58, 49, 58, 49] = .error .Length :=
  ⟨by decide, by decide, tryFrom_length_error 5 _ (by decide) (by decide)⟩

/-- Counterexample to C8 as stated: the input `[32]` (one segment, a space,
not valid base64) has one colon-separated segment — not two — yet
`Ciphertext::try_from` fails with `EncodingError::CurveElem`, not with the
length error: the per-segment decode error is raised before the count check. -/
theorem tryFrom_malformed_segment_cex :
    Ciphertext.try_from 5 [32] = .error .CurveElem
    ∧ (splitOn58 [32]).length = 1 := by
  constructor <;> rfl

/-- `AuthCiphertext` (`src/elgamal.rs:129-133`): a ciphertext with a digest of
the plaintext's canonical bytes.  The external SHA-512 digest is the parameter
`H512` of the operations below. -/
structure AuthCiphertext (q : ℕ) where
  contents : Ciphertext q
  hash : List ℕ

/-- `AuthCiphertext::new` (`src/elgamal.rs:136-141`): stores
`Hash(plaintext bytes)` beside the ciphertext. -/
def AuthCiphertext.new {q : ℕ} (H512 : List ℕ → List ℕ) (ct : Ciphertext q)
    (plaintext : ZMod q) : AuthCiphertext q :=
  { contents := ct, hash := H512 (elemBytes plaintext) }

/-- `AuthCiphertext::verify` (`src/elgamal.rs:143-149`): recompute the digest
of the candidate plaintext and compare byte-for-byte. -/
def AuthCiphertext.verify {q : ℕ} (H512 : List ℕ → List ℕ) (self : AuthCiphertext q)
    (plaintext : ZMod q) : Bool :=
  self.hash == H512 (elemBytes plaintext)

/-- `AuthCiphertext::decrypt` (`src/elgamal.rs:151-158`): decrypt the inner
ciphertext, then accept only if the recomputed digest matches. -/
def AuthCiphertext.decrypt {q : ℕ} (H512 : List ℕ → List ℕ) (self : AuthCiphertext q)
    (secret_key : ZMod q) : Option (ZMod q) :=
  let plaintext := self.contents.decrypt secret_key
  if self.verify H512 plaintext then some plaintext else none

/-- `KNOW_PLAINTEXT_TAG` (`src/zkp.rs:9`): the bytes of `"KNOW_PLAINTEXT"`. -/
def KNOW_PLAINTEXT_TAG : List ℕ := [75, 78, 79, 87, 95, 80, 76, 65, 73, 78, 84, 69, 88, 84]

/-- `EQ_DLOGS_TAG` (`src/zkp.rs:74`): the bytes of `"EQ_DLOGS"`. -/
def EQ_DLOGS_TAG : List ℕ := [69, 81, 95, 68, 76, 79, 71, 83]

/-- `DECRYPTION_TAG` (`src/zkp.rs:124`): the bytes of `"DECRYPTION"`. -/
def DECRYPTION_TAG : List ℕ := [68, 69, 67, 82, 89, 80, 84, 73, 79, 78]

/-- `PrfKnowPlaintext` (`src/zkp.rs:11-17`).  The external hash-to-scalar
engine is the parameter `H` of the operations below. -/
structure PrfKnowPlaintext (q : ℕ) where
  g : ZMod q
  ct : Ciphertext q
  blinded_g : ZMod q
  r : ZMod q
deriving DecidableEq

/-- `PrfKnowPlaintext::challenge` (`src/zkp.rs:27-35`): hash of `g`, `ct.c1`,
`ct.c2`, `blinded_g` and the domain tag, reduced to a scalar. -/
def PrfKnowPlaintext.challenge {q : ℕ} (H : List ℕ → ZMod q) (g : ZMod q)
    (ct : Ciphertext q) (blinded_g : ZMod q) : ZMod q :=
  H (elemBytes g ++ elemBytes ct.c1 ++ elemBytes ct.c2 ++ elemBytes blinded_g
    ++ KNOW_PLAINTEXT_TAG)

/-- `PrfKnowPlaintext::new` (`src/zkp.rs:37-47`); the random commitment scalar
drawn from the context is the explicit argument `z`. -/
def PrfKnowPlaintext.new {q : ℕ} (H : List ℕ → ZMod q) (ctx : CryptoContext q)
    (ct : Ciphertext q) (r z : ZMod q) : PrfKnowPlaintext q :=
  let g := ctx.generator
  let blinded_g := scaled g z
  let c := PrfKnowPlaintext.challenge H g ct blinded_g
  { g := g, ct := ct, blinded_g := blinded_g, r := z + c * r }

/-- `PrfKnowPlaintext::verify` (`src/zkp.rs:49-52`):
`g^r == blinded_g + c1^c` for the recomputed challenge `c`. -/
def PrfKnowPlaintext.verify {q : ℕ} (H : List ℕ → ZMod q)
    (self : PrfKnowPlaintext q) : Bool :=
  scaled self.g self.r
    == self.blinded_g
      + scaled self.ct.c1 (PrfKnowPlaintext.challenge H self.g self.ct self.blinded_g)

/-- `PrfEqDlogs` (`src/zkp.rs:55-64`). -/
structure PrfEqDlogs (q : ℕ) where
  result1 : ZMod q
  base1 : ZMod q
  result2 : ZMod q
  base2 : ZMod q
  blinded_base1 : ZMod q
  blinded_base2 : ZMod q
  r : ZMod q
deriving DecidableEq

/-- `PrfEqDlogs::challenge` (`src/zkp.rs:77-92`): hash of the two bases, the
two results, the two blinded bases and the domain tag. -/
def PrfEqDlogs.challenge {q : ℕ} (H : List ℕ → ZMod q)
    (f h v w a b : ZMod q) : ZMod q :=
  H (elemBytes f ++ elemBytes h ++ elemBytes v ++ elemBytes w ++ elemBytes a
    ++ elemBytes b ++ EQ_DLOGS_TAG)

/-- `PrfEqDlogs::new` (`src/zkp.rs:95-115`); the random commitment scalar is
the explicit argument `z`. -/
def PrfEqDlogs.new {q : ℕ} (H : List ℕ → ZMod q)
    (base1 base2 result1 result2 power z : ZMod q) : PrfEqDlogs q :=
  let blinded_base1 := scaled base1 z
  let blinded_base2 := scaled base2 z
  let c := PrfEqDlogs.challenge H base1 base2 result1 result2 blinded_base1 blinded_base2
  { result1 := result1, base1 := base1, result2 := result2, base2 := base2,
    blinded_base1 := blinded_base1, blinded_base2 := blinded_base2, r := z + c * power }

/-- `PrfEqDlogs::verify` (`src/zkp.rs:117-121`): both per-base equations must
hold for the recomputed challenge. -/
def PrfEqDlogs.verify {q : ℕ} (H : List ℕ → ZMod q) (self : PrfEqDlogs q) : Bool :=
  let c := PrfEqDlogs.challenge H self.base1 self.base2 self.result1 self.result2
    self.blinded_base1 self.blinded_base2
  (scaled self.base1 self.r == self.blinded_base1 + scaled self.result1 c)
    && (scaled self.base2 self.r == self.blinded_base2 + scaled self.result2 c)

/-- `PrfDecryption` (`src/zkp.rs:126-135`). -/
structure PrfDecryption (q : ℕ) where
  g : ZMod q
  ct : Ciphertext q
  public_key : ZMod q
  dec_factor : ZMod q
  blinded_g : ZMod q
  blinded_c1 : ZMod q
  r : ZMod q
deriving DecidableEq

/-- `PrfDecryption::challenge` (`src/zkp.rs:138-147`): hash of `g`, `ct.c1`,
`ct.c2`, `dec_factor`, `public_key` and the domain tag — the two commitments
`blinded_g` and `blinded_c1` are not hashed. -/
def PrfDecryption.challenge {q : ℕ} (H : List ℕ → ZMod q) (g : ZMod q)
    (ct : Ciphertext q) (dec_factor public_key : ZMod q) : ZMod q :=
  H (elemBytes g ++ elemBytes ct.c1 ++ elemBytes ct.c2 ++ elemBytes dec_factor
    ++ elemBytes public_key ++ DECRYPTION_TAG)

/-- `PrfDecryption::new` (`src/zkp.rs:149-161`); the random commitment scalar
is the explicit argument `z`. -/
def PrfDecryption.new {q : ℕ} (H : List ℕ → ZMod q) (ctx : CryptoContext q)
    (ct : Ciphertext q) (dec_factor secret public_key z : ZMod q) : PrfDecryption q :=
  let g := ctx.generator
  let blinded_g := scaled g z
  let blinded_c1 := scaled ct.c1 z
  let c := PrfDecryption.challenge H g ct dec_factor public_key
  { g := g, ct := ct, public_key := public_key, dec_factor := dec_factor,
    blinded_g := blinded_g, blinded_c1 := blinded_c1, r := z + c * secret }

/-- `PrfDecryption::verify` (`src/zkp.rs:163-167`): both equations (on `g` and
on `ct.c1`) must hold for the recomputed challenge. -/
def PrfDecryption.verify {q : ℕ} (H : List ℕ → ZMod q) (self : PrfDecryption q) : Bool :=
  let c := PrfDecryption.challenge H self.g self.ct self.dec_factor self.public_key
  (scaled self.g self.r == self.blinded_g + scaled self.public_key c)
    && (scaled self.ct.c1 self.r == self.blinded_c1 + scaled self.dec_factor c)

/-- Modelled from the spec: the challenge shape the specification prescribes
for `PrfKnowPlaintext` — hash of all public statement elements (`g`, `ct.c1`,
`ct.c2`), then all commitments (`blinded_g`), then the domain tag. -/
def specChallengeKnowPlaintext {q : ℕ} (H : List ℕ → ZMod q) (g : ZMod q)
    (ct : Ciphertext q) (blinded_g : ZMod q) : ZMod q :=
  H ((elemBytes g ++ elemBytes ct.c1 ++ elemBytes ct.c2)
    ++ elemBytes blinded_g ++ KNOW_PLAINTEXT_TAG)

/-- Modelled from the spec: the challenge shape the specification prescribes
for `PrfEqDlogs` — statement elements (bases and results), then both
commitments, then the domain tag. -/
def specChallengeEqDlogs {q : ℕ} (H : List ℕ → ZMod q)
    (base1 base2 result1 result2 blinded1 blinded2 : ZMod q) : ZMod q :=
  H ((elemBytes base1 ++ elemBytes base2 ++ elemBytes result1 ++ elemBytes result2)
    ++ (elemBytes blinded1 ++ elemBytes blinded2) ++ EQ_DLOGS_TAG)

/-- Modelled from the spec: the challenge shape the specification prescribes
for `PrfDecryption` — statement elements (`g`, `ct.c1`, `ct.c2`, `dec_factor`,
`public_key`), then both commitments, then the domain tag. -/
def specChallengeDecryption {q : ℕ} (H : List ℕ → ZMod q) (g : ZMod q)
    (ct : Ciphertext q) (dec_factor public_key blinded_g blinded_c1 : ZMod q) : ZMod q :=
  H ((elemBytes g ++ elemBytes ct.c1 ++ elemBytes ct.c2 ++ elemBytes dec_factor
      ++ elemBytes public_key)
    ++ (elemBytes blinded_g ++ elemBytes blinded_c1) ++ DECRYPTION_TAG)

/-- Claim C2, amended: for `PrfKnowPlaintext` and `PrfEqDlogs` the challenge is
the hash of the statement elements, then the commitments, then the domain tag,
as the specification prescribes; for `PrfDecryption` the challenge hashes only
the statement elements and the domain tag — the commitments are omitted. -/
theorem challenge_shape {q : ℕ} :
    (∀ (H : List ℕ → ZMod q) (g : ZMod q) (ct : Ciphertext q) (bg : ZMod q),
      PrfKnowPlaintext.challenge H g ct bg = specChallengeKnowPlaintext H g ct bg)
    ∧ (∀ (H : List ℕ → ZMod q) (b1 b2 r1 r2 a1 a2 : ZMod q),
      PrfEqDlogs.challenge H b1 b2 r1 r2 a1 a2 = specChallengeEqDlogs H b1 b2 r1 r2 a1 a2)
    ∧ (∀ (H : List ℕ → ZMod q) (g : ZMod q) (ct : Ciphertext q) (df pk : ZMod q),
      PrfDecryption.challenge H g ct df pk
        = H ((elemBytes g ++ elemBytes ct.c1 ++ elemBytes ct.c2 ++ elemBytes df
            ++ elemBytes pk) ++ DECRYPTION_TAG)) := by
  refine ⟨fun H g ct bg => ?_, fun H b1 b2 r1 r2 a1 a2 => ?_, fun H g ct df pk => ?_⟩ <;>
    simp [PrfKnowPlaintext.challenge, specChallengeKnowPlaintext, PrfEqDlogs.challenge,
      specChallengeEqDlogs, PrfDecryption.challenge, List.append_assoc]

/-- Counterexample to C2 as stated: with the hash-to-scalar function
`H = fun l => l.length` over `ZMod 5`, the challenge `PrfDecryption::challenge`
actually computes differs from the spec-prescribed hash of statement elements,
commitments and domain tag, because the commitments are never hashed. -/
theorem prfDecryption_challenge_cex :
    PrfDecryption.challenge (fun l => (l.length : ZMod 5)) 1 { c1 := 1, c2 := 1 } 1 1
      ≠ specChallengeDecryption (fun l => (l.length : ZMod 5)) 1 { c1 := 1, c2 := 1 } 1 1 1 1 := by
  decide

/-- Claim C5: completeness of the three proof protocols — a proof generated by
`new` from a true statement with the correct witness verifies, for every
commitment scalar `z` and every hash-to-scalar function. -/
theorem proof_completeness {q : ℕ} :
    (∀ (H : List ℕ → ZMod q) (ctx : CryptoContext q) (ct : Ciphertext q) (r z : ZMod q),
      ct.c1 = ctx.g_to r → (PrfKnowPlaintext.new H ctx ct r z).verify H = true)
    ∧ (∀ (H : List ℕ → ZMod q) (base1 base2 result1 result2 x z : ZMod q),
      result1 = scaled base1 x → result2 = scaled base2 x →
      (PrfEqDlogs.new H base1 base2 result1 result2 x z).verify H = true)
    ∧ (∀ (H : List ℕ → ZMod q) (ctx : CryptoContext q) (ct : Ciphertext q) (df x pk z : ZMod q),
      pk = ctx.g_to x → df = scaled ct.c1 x →
      (PrfDecryption.new H ctx ct df x pk z).verify H = true) := by
  refine ⟨?_, ?_, ?_⟩
  · intro H ctx ct r z h
    simp only [PrfKnowPlaintext.new, PrfKnowPlaintext.verify, CryptoContext.generator,
      CryptoContext.g_to, scaled, beq_iff_eq] at h ⊢
    rw [h]
    ring
  · intro H b1 b2 r1 r2 x z h1 h2
    simp only [PrfEqDlogs.new, PrfEqDlogs.verify, scaled, Bool.and_eq_true, beq_iff_eq] at h1 h2 ⊢
    rw [h1, h2]
    constructor <;> ring
  · intro H ctx ct df x pk z h1 h2
    simp only [PrfDecryption.new, PrfDecryption.verify, CryptoContext.generator,
      CryptoContext.g_to, scaled, Bool.and_eq_true, beq_iff_eq] at h1 h2 ⊢
    rw [h1, h2]
    constructor <;> ring

/-- Witness for C5 at `q = 5` with concrete statements, witnesses, commitment
scalars, and the hash-to-scalar function constantly `1`. -/
theorem proof_completeness_witness :
    (PrfKnowPlaintext.new (fun _ => (1 : ZMod 5)) ⟨1, []⟩ ⟨2, 3⟩ 2 3).verify
      (fun _ => (1 : ZMod 5)) = true
    ∧ (PrfEqDlogs.new (fun _ => (1 : ZMod 5)) 1 2 3 1 3 4).verify
      (fun _ => (1 : ZMod 5)) = true
    ∧ (PrfDecryption.new (fun _ => (1 : ZMod 5)) ⟨1, []⟩ ⟨3, 4⟩ 1 2 2 0).verify
      (fun _ => (1 : ZMod 5)) = true :=
  ⟨proof_completeness.1 _ _ _ _ _ (by decide),
   proof_completeness.2.1 _ _ _ _ _ _ _ (by decide) (by decide),
   proof_completeness.2.2 _ _ _ _ _ _ _ (by decide) (by decide)⟩

/-- Claim C6, amended: adding one to the response scalar of an honestly
generated proof makes `verify` return false — unconditionally for
`PrfKnowPlaintext` and `PrfDecryption` (whose first verification equation is
over the fixed, non-identity generator), and for `PrfEqDlogs` provided at
least one of the two bases is not the group identity. -/
theorem tampered_response_rejected {q : ℕ} :
    (∀ (H : List ℕ → ZMod q) (ctx : CryptoContext q) (ct : Ciphertext q) (r z : ZMod q),
      ct.c1 = ctx.g_to r → ctx.g ≠ 0 →
      (let p := PrfKnowPlaintext.new H ctx ct r z
       PrfKnowPlaintext.verify H { p with r := p.r + 1 }) = false)
    ∧ (∀ (H : List ℕ → ZMod q) (base1 base2 result1 result2 x z : ZMod q),
      result1 = scaled base1 x → result2 = scaled base2 x →
      base1 ≠ 0 ∨ base2 ≠ 0 →
      (let p := PrfEqDlogs.new H base1 base2 result1 result2 x z
       PrfEqDlogs.verify H { p with r := p.r + 1 }) = false)
    ∧ (∀ (H : List ℕ → ZMod q) (ctx : CryptoContext q) (ct : Ciphertext q) (df x pk z : ZMod q),
      pk = ctx.g_to x → df = scaled ct.c1 x → ctx.g ≠ 0 →
      (let p := PrfDecryption.new H ctx ct df x pk z
       PrfDecryption.verify H { p with r := p.r + 1 }) = false) := by
  refine ⟨?_, ?_, ?_⟩
  · intro H ctx ct r z h hg
    simp only [PrfKnowPlaintext.new, PrfKnowPlaintext.verify, CryptoContext.generator,
      CryptoContext.g_to, scaled, beq_eq_false_iff_ne] at h ⊢
    rw [h]
    intro heq
    exact hg (by linear_combination heq)
  · intro H b1 b2 r1 r2 x z h1 h2 hb
    simp only [scaled] at h1 h2
    simp only [PrfEqDlogs.new, PrfEqDlogs.verify, scaled, Bool.and_eq_false_iff,
      beq_eq_false_iff_ne]
    rcases hb with hb | hb
    · left
      rw [h1]
      intro heq
      exact hb (by linear_combination heq)
    · right
      rw [h2]
      intro heq
      exact hb (by linear_combination heq)
  · intro H ctx ct df x pk z h1 h2 hg
    simp only [CryptoContext.g_to, scaled] at h1 h2
    simp only [PrfDecryption.new, PrfDecryption.verify, CryptoContext.generator,
      CryptoContext.g_to, scaled, Bool.and_eq_false_iff, beq_eq_false_iff_ne]
    left
    rw [h1]
    intro heq
    exact hg (by linear_combination heq)

/-- Witness for the amended C6 at `q = 5` with concrete honest proofs for all
three protocols. -/
theorem tampered_response_rejected_witness :
    (let p := PrfKnowPlaintext.new (fun _ => (1 : ZMod 5)) ⟨1, []⟩ ⟨2, 3⟩ 2 3
     PrfKnowPlaintext.verify (fun _ => (1 : ZMod 5)) { p with r := p.r + 1 }) = false
    ∧ (let p := PrfEqDlogs.new (fun _ => (1 : ZMod 5)) 1 2 3 1 3 4
       PrfEqDlogs.verify (fun _ => (1 : ZMod 5)) { p with r := p.r + 1 }) = false
    ∧ (let p := PrfDecryption.new (fun _ => (1 : ZMod 5)) ⟨1, []⟩ ⟨3, 4⟩ 1 2 2 0
       PrfDecryption.verify (fun _ => (1 : ZMod 5)) { p with r := p.r + 1 }) = false :=
  ⟨tampered_response_rejected.1 _ _ _ _ _ (by decide) (by decide),
   tampered_response_rejected.2.1 _ _ _ _ _ _ _ (by decide) (by decide) (Or.inl (by decide)),
   tampered_response_rejected.2.2 _ _ _ _ _ _ _ (by decide) (by decide) (by decide)⟩

/-- Counterexample to C6 as stated: over `ZMod 5`, an honestly generated
`PrfEqDlogs` proof whose two bases are both the group identity (a true
statement — both results equal `base^x` for the witness `x = 3`) still
verifies after its response scalar is replaced by `r + 1`. -/
theorem tampered_eqdlogs_cex :
    scaled (0 : ZMod 5) 3 = 0
    ∧ (let p := PrfEqDlogs.new (fun _ => (1 : ZMod 5)) 0 0 0 0 3 2
       PrfEqDlogs.verify (fun _ => (1 : ZMod 5)) { p with r := p.r + 1 }) = true := by
  exact ⟨by decide, by decide⟩

/-- Claim C7: `AuthCiphertext::decrypt` returns `some p` with
`p = contents.decrypt x` exactly when the recomputed digest of `p` equals the
stored tag, and returns `none` (never a hard error) exactly when it does not. -/
theorem authDecrypt_characterization {q : ℕ} (H512 : List ℕ → List ℕ)
    (a : AuthCiphertext q) (x p : ZMod q) :
    (AuthCiphertext.decrypt H512 a x = some p
      ↔ p = a.contents.decrypt x ∧ a.hash = H512 (elemBytes p))
    ∧ (AuthCiphertext.decrypt H512 a x = none
      ↔ a.hash ≠ H512 (elemBytes (a.contents.decrypt x))) := by
  simp only [AuthCiphertext.decrypt, AuthCiphertext.verify, beq_iff_eq]
  by_cases h : a.hash = H512 (elemBytes (a.contents.decrypt x))
  · simp only [if_pos h, Option.some.injEq]
    refine ⟨⟨fun he => ?_, fun hpe => ?_⟩, by simp [h]⟩
    · exact ⟨he.symm, he ▸ h⟩
    · exact hpe.1.symm
  · simp only [if_neg h]
    refine ⟨⟨fun hc => ?_, fun hpe => ?_⟩, by simp [h]⟩
    · exact absurd hc (by simp)
    · exact absurd (hpe.1 ▸ hpe.2) h

end Cryptid
